import Mathlib

/-!
Verification of the reconciliation core of the OpenRouter class key
provisioner (src/manage_keys.py) against its specification.

Modelling conventions:
* Python dictionaries keyed by strings are association lists; assignment
  replaces an existing binding in place, otherwise appends (dictInsert).
* Python floats that carry currency amounts are modelled as exact
  rationals; the spec demands exact numeric equality on these amounts.
* str.strip and str.lower are modelled over the ASCII range (pyStrip,
  pyLower); the regular expression classes backslash-d and backslash-w
  are modelled as ASCII digits and ASCII alphanumerics plus underscore.
  The dot in the patterns does not match a newline, following Python
  re semantics on labels that do not end in a newline.
* CSV mechanics are out of scope per the spec; files are lists of typed
  row records (RosterRow, LimitsRow, LimitsFileRow).
* The remote service is the black box of section 6 of the spec: an
  update call applies exactly the fields present in the payload.
-/

/-- Python str.strip: drop leading and trailing whitespace. -/
def pyStrip (s : String) : String :=
  String.mk (((s.data.dropWhile Char.isWhitespace).reverse.dropWhile Char.isWhitespace).reverse)

/-- Python str.lower over the ASCII range. -/
def pyLower (s : String) : String :=
  String.mk (s.data.map Char.toLower)

/-- Python dict assignment on an association list: replace the binding in
place when the key is present, otherwise append it. -/
def dictInsert {α : Type} (m : List (String × α)) (k : String) (v : α) : List (String × α) :=
  if m.any (fun p => p.1 == k) then m.map (fun p => if p.1 == k then (k, v) else p)
  else m ++ [(k, v)]

/-- Python dict lookup on an association list. -/
def dictFind? {α : Type} (m : List (String × α)) (k : String) : Option α :=
  (m.find? (fun p => p.1 == k)).map (fun p => p.2)

/-- A roster entry as produced by load_roster: identity fields plus the
entitlement target (budget, reset cadence). -/
structure StudentInfo where
  first_name : String
  last_name : String
  mq_id : String
  budget : Option ℚ
  limit_reset : Option String
deriving DecidableEq

/-- A key record as listed by the remote service; the fields the core
reads.  disabled is optional because key.get("disabled", False) supplies
a default. -/
structure RemoteKey where
  hash : String
  name : String
  limit : Option ℚ
  disabled : Option Bool
deriving DecidableEq

/-- display_name: first name, space, last name, stripped. -/
def display_name (info : StudentInfo) : String :=
  pyStrip (info.first_name ++ " " ++ info.last_name)

/-- build_key_name with an explicit date (the Python default, the current
date, is an external input; every claim supplies the date). -/
def build_key_name (info : StudentInfo) (date : String) : String :=
  date ++ "_" ++ display_name info ++ "_" ++ info.mq_id

/-- The character class backslash-w of the key-name pattern (ASCII). -/
def wordChar (c : Char) : Bool := c.isAlphanum || c == '_'

/-- The greedy split of the first key-name pattern: find the rightmost
underscore whose suffix is nonempty and all word characters, returning
(prefix, suffix).  The rightmost split corresponds to the greedy
backtracking of  (.+)_(backslash-w+)$ . -/
def findSplit : List Char → Option (List Char × List Char)
  | [] => none
  | c :: rest =>
    match findSplit rest with
    | some (g2, g3) => some (c :: g2, g3)
    | none =>
      if c == '_' && !rest.isEmpty && rest.all wordChar then some ([], rest) else none

/-- parse_key_name: eight digits, underscore, then greedily name and a
word-character identifier; fall back to eight digits, underscore, name;
otherwise the whole label is the name.  The dot of the patterns does not
match a newline, so a remainder containing a newline parses as in the
final fallback. -/
def parse_key_name (s : String) : Option String × String × Option String :=
  let cs := s.data
  let date := cs.take 8
  let rest := cs.drop 8
  if date.length == 8 && date.all Char.isDigit then
    match rest with
    | '_' :: r =>
      if r.contains '\n' then (none, s, none)
      else
        match findSplit r with
        | some (g2, g3) =>
          if g2.isEmpty then (some (String.mk date), String.mk r, none)
          else (some (String.mk date), String.mk g2, some (String.mk g3))
        | none =>
          if r.isEmpty then (none, s, none) else (some (String.mk date), String.mk r, none)
    | _ => (none, s, none)
  else (none, s, none)

/-- The mq_id lookup built by map_keys_to_roster: for each roster entry in
order, when the student identifier is non-empty (truthy), bind it to the
(email, info) pair; a later duplicate identifier overwrites an earlier one,
as Python dict assignment does. -/
def mqIdLookup (roster : List (String × StudentInfo)) : List (String × (String × StudentInfo)) :=
  roster.foldl
    (fun acc p => if p.2.mq_id ≠ "" then dictInsert acc p.2.mq_id (p.1, p.2) else acc) []

/-- The loop body of map_keys_to_roster, processing keys in input order:
decode the label; when the decoded identifier is present and found in the
lookup, emit a match, otherwise an orphan. -/
def mapKeysGo (lk : List (String × (String × StudentInfo))) :
    List RemoteKey → List (RemoteKey × String × StudentInfo) × List (RemoteKey × String)
  | [] => ([], [])
  | k :: ks =>
    let r := mapKeysGo lk ks
    match (parse_key_name k.name).2.2 with
    | some mq =>
      match dictFind? lk mq with
      | some (email, info) => ((k, email, info) :: r.1, r.2)
      | none => (r.1, (k, k.name) :: r.2)
    | none => (r.1, (k, k.name) :: r.2)

/-- map_keys_to_roster: partition the remote keys into matched and
orphaned against the roster lookup. -/
def map_keys_to_roster (keys : List RemoteKey) (roster : List (String × StudentInfo)) :
    List (RemoteKey × String × StudentInfo) × List (RemoteKey × String) :=
  mapKeysGo (mqIdLookup roster) keys

/-- The matching condition of map_keys_to_roster for one key: the decoded
student identifier is present and found in the roster lookup. -/
def keyHasRosterMatch (roster : List (String × StudentInfo)) (k : RemoteKey) : Bool :=
  match (parse_key_name k.name).2.2 with
  | some mq => (dictFind? (mqIdLookup roster) mq).isSome
  | none => false

/-- The budget cell of a roster CSV row: either the empty string or the
decimal rendering of an amount (a non-empty string, hence truthy even
when the amount is zero). -/
inductive BudgetCell where
  | empty : BudgetCell
  | num : ℚ → BudgetCell
deriving DecidableEq

/-- float(cell) if cell else None, applied to a budget cell. -/
def budgetValue : BudgetCell → Option ℚ
  | .empty => none
  | .num q => some q

/-- A row of the roster file: first_name,last_name,email,mq_id,budget,limit_reset. -/
structure RosterRow where
  first_name : String
  last_name : String
  email : String
  mq_id : String
  budget : BudgetCell
  limit_reset : String
deriving DecidableEq

def VALID_LIMIT_RESETS : List String := ["daily", "weekly", "monthly"]

/-- validate_roster_row: the required fields must be non-empty after
stripping, checked in order, with an error naming the row number and the
field.  (Error texts are abridged; only success versus failure is load
bearing.) -/
def validate_roster_row (row : RosterRow) (line_number : ℕ) : Except String Unit :=
  if pyStrip row.first_name = "" then
    .error ("Roster row " ++ toString line_number ++ ": required field first_name is empty")
  else if pyStrip row.last_name = "" then
    .error ("Roster row " ++ toString line_number ++ ": required field last_name is empty")
  else if pyStrip row.mq_id = "" then
    .error ("Roster row " ++ toString line_number ++ ": required field mq_id is empty")
  else .ok ()

/-- The StudentInfo a loaded roster row produces. -/
def mkInfo (row : RosterRow) (lrOpt : Option String) : StudentInfo :=
  { first_name := pyStrip row.first_name
    last_name := pyStrip row.last_name
    mq_id := pyStrip row.mq_id
    budget := budgetValue row.budget
    limit_reset := lrOpt }

/-- One iteration of the load_roster loop: validate the row, normalise and
check the reset cadence, then bind the email to the student record. -/
def loadRowStep (acc : List (String × StudentInfo)) (row : RosterRow) (n : ℕ) :
    Except String (List (String × StudentInfo)) :=
  match validate_roster_row row n with
  | .error e => .error e
  | .ok _ =>
    let lr := pyLower (pyStrip row.limit_reset)
    let lrOpt : Option String := if lr = "" then none else some lr
    match lrOpt with
    | some v =>
      if v ∈ VALID_LIMIT_RESETS then .ok (dictInsert acc row.email (mkInfo row lrOpt))
      else .error ("Invalid limit_reset for " ++ row.email)
    | none => .ok (dictInsert acc row.email (mkInfo row none))

/-- The load_roster loop over the remaining rows, numbering from n. -/
def loadRosterGo : List RosterRow → ℕ → List (String × StudentInfo) →
    Except String (List (String × StudentInfo))
  | [], _, acc => .ok acc
  | row :: rest, n, acc =>
    match loadRowStep acc row n with
    | .error e => .error e
    | .ok acc2 => loadRosterGo rest (n + 1) acc2

/-- load_roster: fold the rows into an email-keyed mapping, with row
numbers starting at 2 (the header is line 1). -/
def load_roster (rows : List RosterRow) : Except String (List (String × StudentInfo)) :=
  loadRosterGo rows 2 []

/-- The roster row save_roster writes for one entry: raw identity fields,
the budget re-serialised as empty when falsy (absent or zero), the
cadence as empty when absent. -/
def rosterRowOf (email : String) (info : StudentInfo) : RosterRow :=
  { first_name := info.first_name
    last_name := info.last_name
    email := email
    mq_id := info.mq_id
    budget :=
      match info.budget with
      | some q => if q = 0 then .empty else .num q
      | none => .empty
    limit_reset := info.limit_reset.getD "" }

/-- Lexicographic comparison of character lists by code point, the
ordering Python string comparison uses. -/
def charListLe : List Char → List Char → Bool
  | [], _ => true
  | _ :: _, [] => false
  | c :: cs, d :: ds =>
    if c.toNat < d.toNat then true
    else if d.toNat < c.toNat then false
    else charListLe cs ds

/-- String comparison as Python compares strings: lexicographic on code
points. -/
def strLe (a b : String) : Bool := charListLe a.data b.data

/-- Stable insertion into a list sorted ascending on a string key. -/
def insertSortedByKey {α : Type} (keyf : α → String) (x : α) : List α → List α
  | [] => [x]
  | y :: rest =>
    if strLe (keyf x) (keyf y) then x :: y :: rest else y :: insertSortedByKey keyf x rest

/-- Python sorted with a string key (stable, ascending). -/
def sortByKey {α : Type} (keyf : α → String) (l : List α) : List α :=
  l.foldr (insertSortedByKey keyf) []

/-- save_roster: one row per entry, sorted by email ascending. -/
def save_roster (roster : List (String × StudentInfo)) : List RosterRow :=
  (sortByKey Prod.fst roster).map (fun p => rosterRowOf p.1 p.2)

/-- The trim-and-lower normalisation Save-then-Load applies to a student
record: strip the identity fields, strip and lower the cadence. -/
def normalizeInfo (i : StudentInfo) : StudentInfo :=
  { first_name := pyStrip i.first_name
    last_name := pyStrip i.last_name
    mq_id := pyStrip i.mq_id
    budget := i.budget
    limit_reset := i.limit_reset.map (fun s => pyLower (pyStrip s)) }

/-- A student record that passes roster validation, with a budget the
falsy-zero re-serialisation of save_roster does not collapse. -/
def validInfoB (i : StudentInfo) : Bool :=
  decide (pyStrip i.first_name ≠ "") && decide (pyStrip i.last_name ≠ "") &&
  decide (pyStrip i.mq_id ≠ "") && decide (i.budget ≠ some (0 : ℚ)) &&
  (match i.limit_reset with
   | none => true
   | some s => decide (pyLower (pyStrip s) ∈ VALID_LIMIT_RESETS))

/-- Per-row admissibility for load_roster: required fields non-empty after
stripping and the cadence blank or in the valid set. -/
def rowOK (row : RosterRow) : Bool :=
  decide (pyStrip row.first_name ≠ "") && decide (pyStrip row.last_name ≠ "") &&
  decide (pyStrip row.mq_id ≠ "") &&
  (decide (pyLower (pyStrip row.limit_reset) = "") ||
    decide (pyLower (pyStrip row.limit_reset) ∈ VALID_LIMIT_RESETS))

/-- Whether an Except carries a value. -/
def exceptIsOk {ε α : Type} : Except ε α → Bool
  | .ok _ => true
  | .error _ => false

instance {ε α : Type} [DecidableEq ε] [DecidableEq α] : DecidableEq (Except ε α) := fun x y =>
  match x, y with
  | .error a, .error b => decidable_of_iff (a = b) (by simp)
  | .error _, .ok _ => .isFalse (by simp)
  | .ok _, .error _ => .isFalse (by simp)
  | .ok a, .ok b => decidable_of_iff (a = b) (by simp)

/-- A target_limit or actual_limit cell of the target-entitlement file:
the literal string unlimited, or the decimal rendering of an amount. -/
inductive TargetLimitCell where
  | unlimited : TargetLimitCell
  | amount : ℚ → TargetLimitCell
deriving DecidableEq

/-- A row of limits.csv as the update command reads it: the email and the
two target cells. -/
structure LimitsRow where
  email : String
  target_limit : TargetLimitCell
  target_disabled : String
deriving DecidableEq

/-- The target-limit parse of the update command: None if the cell reads
unlimited, else float of the (non-empty, hence truthy) decimal string. -/
def parseTargetLimit : TargetLimitCell → Option ℚ
  | .unlimited => none
  | .amount q => some q

/-- row.get("target_disabled", "false").lower() == "true". -/
def parseTargetDisabled (s : String) : Bool :=
  pyLower s == "true"

/-- key.get("disabled", False). -/
def actualDisabled (k : RemoteKey) : Bool :=
  k.disabled.getD false

/-- The kind of an atomic change, with its before and after values. -/
inductive ChangeKind where
  | limit : Option ℚ → Option ℚ → ChangeKind
  | disabled : Bool → Bool → ChangeKind
deriving DecidableEq

/-- A change record of the update command. -/
structure Change where
  email : String
  key_hash : String
  key_name : String
  kind : ChangeKind
deriving DecidableEq

/-- The changes the diff engine emits for one limits row joined with its
remote key: a limit change iff the parsed target differs from the actual
limit, then a disabled change iff the parsed target flag differs from the
actual flag. -/
def rowChanges (k : RemoteKey) (row : LimitsRow) : List Change :=
  let target := parseTargetLimit row.target_limit
  let lcs :=
    if target ≠ k.limit then [⟨row.email, k.hash, k.name, .limit k.limit target⟩] else []
  let td := parseTargetDisabled row.target_disabled
  let dcs :=
    if td ≠ actualDisabled k then [⟨row.email, k.hash, k.name, .disabled (actualDisabled k) td⟩]
    else []
  lcs ++ dcs

/-- The change-list computation of the update command: walk the limits
rows in order, skip rows whose email has no matched remote key (a warning
only), and append the row changes. -/
def computeChanges (emailToKey : List (String × RemoteKey)) (rows : List LimitsRow) : List Change :=
  rows.foldl
    (fun acc row =>
      match dictFind? emailToKey row.email with
      | some k => acc ++ rowChanges k row
      | none => acc) []

/-- A recorded changelog value: str() of None, of an amount, of a flag, or
the provisioned summary string.  The decimal or boolean rendering itself
is presentation and kept structured here. -/
inductive PyVal where
  | none : PyVal
  | num : ℚ → PyVal
  | bool : Bool → PyVal
  | provisionSummary : ℚ → Option String → PyVal
deriving DecidableEq

/-- An appended changelog row. -/
structure ChangelogEntry where
  key_hash : String
  action : String
  old_value : PyVal
  new_value : PyVal
  changed_at : String
deriving DecidableEq

def changeAction : ChangeKind → String
  | .limit _ _ => "update_limit"
  | .disabled _ _ => "update_disabled"

def changeOld : ChangeKind → PyVal
  | .limit o _ => match o with | some q => .num q | none => .none
  | .disabled o _ => .bool o

def changeNew : ChangeKind → PyVal
  | .limit _ n => match n with | some q => .num q | none => .none
  | .disabled _ n => .bool n

/-- The changelog row the update command inserts after a successful remote
update; the timestamp is computed once before the loop. -/
def mkChangelogEntry (ts : String) (c : Change) : ChangelogEntry :=
  ⟨c.key_hash, changeAction c.kind, changeOld c.kind, changeNew c.kind, ts⟩

/-- The apply loop of the update command over the remaining changes, with
the index of the next change: issue the remote update; on success append
the changelog row and continue; on the first failure stop at once,
keeping the rows already written, and report the failing index. -/
def applyBatchGo (ok : ℕ → Bool) (ts : String) : ℕ → List Change → List ChangelogEntry × Option ℕ
  | _, [] => ([], none)
  | i, c :: rest =>
    if ok i then
      let r := applyBatchGo ok ts (i + 1) rest
      (mkChangelogEntry ts c :: r.1, r.2)
    else ([], some i)

/-- The batch applier of the update command: changes strictly in input
order, one at a time, against a remote whose call at position i succeeds
iff ok i. -/
def applyBatch (ok : ℕ → Bool) (ts : String) (cs : List Change) : List ChangelogEntry × Option ℕ :=
  applyBatchGo ok ts 0 cs

/-- update_openrouter_key against the black-box remote store: the payload
carries the limit only when it is not None and the disabled flag only
when it is not None, and the remote applies exactly the fields present.
A limit change whose new value is None therefore sends an empty payload
and leaves the remote limit unchanged. -/
def update_openrouter_key (k : RemoteKey) (limit : Option ℚ) (disabled : Option Bool) : RemoteKey :=
  { k with
    limit := match limit with | some l => some l | none => k.limit
    disabled := match disabled with | some d => some d | none => k.disabled }

/-- The remote effect of applying one change, as the update command calls
update_openrouter_key: a limit change passes only the new limit, a
disabled change passes only the new flag. -/
def applyChangeRemote (k : RemoteKey) (c : Change) : RemoteKey :=
  match c.kind with
  | .limit _ new => update_openrouter_key k new none
  | .disabled _ new => update_openrouter_key k none (some new)

/-- A provisioning work item: email, student record, resolved budget and
reset cadence. -/
structure ProvItem where
  email : String
  info : StudentInfo
  limit : ℚ
  limit_reset : Option String
deriving DecidableEq

/-- A key created during provisioning; the hash is assigned by the remote
service, supplied here by the oracle hashOf. -/
structure CreatedKey where
  email : String
  info : StudentInfo
  limit : ℚ
  limit_reset : Option String
  hash : String
deriving DecidableEq

/-- The creation loop of the provision command: create keys one at a time
in order; on the first failure stop at once, keeping the keys already
created, and report the failing index. -/
def provisionGo (ok : ℕ → Bool) (hashOf : ℕ → String) :
    ℕ → List ProvItem → List CreatedKey × Option ℕ
  | _, [] => ([], none)
  | i, it :: rest =>
    if ok i then
      let r := provisionGo ok hashOf (i + 1) rest
      (⟨it.email, it.info, it.limit, it.limit_reset, hashOf i⟩ :: r.1, r.2)
    else ([], some i)

/-- The created keys a fully successful run of the creation loop yields,
starting from index b. -/
def createdList (hashOf : ℕ → String) : ℕ → List ProvItem → List CreatedKey
  | _, [] => []
  | b, it :: rest => ⟨it.email, it.info, it.limit, it.limit_reset, hashOf b⟩ :: createdList hashOf (b + 1) rest

/-- The provisioned changelog row: no prior value, and the new value the
limit-and-reset summary string. -/
def provisionedEntry (ts : String) (ck : CreatedKey) : ChangelogEntry :=
  ⟨ck.hash, "provisioned", PyVal.none, PyVal.provisionSummary ck.limit ck.limit_reset, ts⟩

/-- The provision command around its creation loop: on a mid-batch
failure the process exits before the changelog loop runs, so no
provisioned rows are written; only a fully successful batch writes one
provisioned row per created key. -/
def provisionRun (ok : ℕ → Bool) (hashOf : ℕ → String) (ts : String) (items : List ProvItem) :
    List CreatedKey × List ChangelogEntry × Option ℕ :=
  let r := provisionGo ok hashOf 0 items
  match r.2 with
  | none => (r.1, r.1.map (provisionedEntry ts), none)
  | some i => (r.1, [], some i)

/-- An existing target pair from load_limits: absent-or-empty cells are
falsy and modelled as none. -/
structure ExistingTarget where
  target_limit : Option TargetLimitCell
  target_disabled : Option String
deriving DecidableEq

/-- The target limit save_limits resolves for a matched key: a truthy
existing target cell is preserved (unlimited parsing to None), otherwise
the current actual limit is adopted. -/
def savedTargetLimit (existing : Option ExistingTarget) (k : RemoteKey) : Option ℚ :=
  match existing with
  | some ex =>
    match ex.target_limit with
    | some .unlimited => none
    | some (.amount q) => some q
    | none => k.limit
  | none => k.limit

/-- The target disabled flag save_limits resolves for a matched key: a
truthy existing cell is preserved via lower() == "true", otherwise the
current actual flag is adopted. -/
def savedTargetDisabled (existing : Option ExistingTarget) (k : RemoteKey) : Bool :=
  match existing with
  | some ex =>
    match ex.target_disabled with
    | some s => if s ≠ "" then pyLower s == "true" else actualDisabled k
    | none => actualDisabled k
  | none => actualDisabled k

/-- The cell serialisation  v if v else "unlimited"  of save_limits: a
falsy value (None or zero) writes the literal unlimited. -/
def limitCellOf (v : Option ℚ) : TargetLimitCell :=
  match v with
  | some q => if q = 0 then .unlimited else .amount q
  | none => .unlimited

/-- A row of the target-entitlement file as save_limits writes it. -/
structure LimitsFileRow where
  email : String
  name : String
  mq_id : String
  target_limit : TargetLimitCell
  actual_limit : TargetLimitCell
  target_disabled : String
  actual_disabled : String
  key_name : String
  hash : String
deriving DecidableEq

/-- str(b).lower() for a Python bool. -/
def pyBoolStr (b : Bool) : String :=
  if b then "true" else "false"

/-- The row save_limits writes for one matched entry. -/
def saveLimitsRowOut (existing : Option ExistingTarget) (k : RemoteKey) (email : String)
    (info : StudentInfo) : LimitsFileRow :=
  { email := email
    name := display_name info
    mq_id := info.mq_id
    target_limit := limitCellOf (savedTargetLimit existing k)
    actual_limit := limitCellOf k.limit
    target_disabled := pyBoolStr (savedTargetDisabled existing k)
    actual_disabled := pyBoolStr (actualDisabled k)
    key_name := k.name
    hash := k.hash }

/-- save_limits: one row per matched entry, sorted by email ascending,
preserving existing targets where truthy. -/
def save_limits (existing : List (String × ExistingTarget))
    (matched : List (RemoteKey × String × StudentInfo)) : List LimitsFileRow :=
  (sortByKey (fun t => t.2.1) matched).map
    (fun t => saveLimitsRowOut (dictFind? existing t.2.1) t.1 t.2.1 t.2.2)

lemma all_wordChar_of_all_alphanum {l : List Char} (h : l.all Char.isAlphanum = true) :
    l.all wordChar = true := by
  rw [List.all_eq_true] at h ⊢
  intro c hc
  have := h c hc
  simp [wordChar, this]

lemma not_underscore_of_alphanum {c : Char} (h : c.isAlphanum = true) : (c == '_') = false := by
  by_contra hne
  have hb : (c == '_') = true := by
    cases hcb : (c == '_') with
    | false => exact absurd hcb hne
    | true => rfl
  have : c = '_' := by
    have := beq_iff_eq (a := c) (b := '_')
    exact this.mp hb
  subst this
  simp [Char.isAlphanum, Char.isAlpha, Char.isUpper, Char.isLower, Char.isDigit] at h

lemma findSplit_of_all_alphanum : ∀ (l : List Char), l.all Char.isAlphanum = true →
    findSplit l = none := by
  intro l
  induction l with
  | nil => intro _; rfl
  | cons c rest ih =>
    intro h
    rw [List.all_cons, Bool.and_eq_true] at h
    rw [findSplit, ih h.2, not_underscore_of_alphanum h.1]
    simp

lemma findSplit_append (n I : List Char) (hI : I ≠ []) (hIa : I.all Char.isAlphanum = true) :
    findSplit (n ++ '_' :: I) = some (n, I) := by
  induction n with
  | nil =>
    rw [List.nil_append, findSplit, findSplit_of_all_alphanum I hIa]
    simp [hI, all_wordChar_of_all_alphanum hIa, List.isEmpty_iff]
  | cons c n ih =>
    rw [List.cons_append, findSplit, ih]

/-- C7 (amended): for every student whose display name is non-empty and
newline free and whose identifier is a non-empty string of alphanumeric
characters, and every 8-digit date, decoding the encoded label yields
exactly the date, the display name and the student identifier.  The
original claim over arbitrary identifier strings fails, see the
counterexample. -/
theorem c7_codec_amended (info : StudentInfo) (date : String)
    (hd : date.data.length = 8) (hdd : ∀ c ∈ date.data, c.isDigit = true)
    (hn : (display_name info).data ≠ [])
    (hnl : '\n' ∉ (display_name info).data)
    (hm : info.mq_id.data ≠ [])
    (hma : ∀ c ∈ info.mq_id.data, c.isAlphanum = true) :
    parse_key_name (build_key_name info date) =
      (some date, display_name info, some info.mq_id) := by
  set D := date.data with hD
  set N := (display_name info).data with hN
  set I := info.mq_id.data with hI
  have hdata : (build_key_name info date).data = D ++ '_' :: (N ++ '_' :: I) := by
    simp [build_key_name, String.data_append, hD, hN, hI]
  have htake : ((D ++ '_' :: (N ++ '_' :: I)).take 8) = D := by
    rw [← hd]; exact List.take_left D _
  have hdrop : ((D ++ '_' :: (N ++ '_' :: I)).drop 8) = '_' :: (N ++ '_' :: I) := by
    rw [← hd]; exact List.drop_left D _
  have hcond : (D.length == 8 && D.all Char.isDigit) = true := by
    rw [hd]
    simp [List.all_eq_true]
    exact hdd
  have hcontains : ((N ++ '_' :: I).contains '\n') = false := by
    cases hc : ((N ++ '_' :: I).contains '\n') with
    | false => rfl
    | true =>
      exfalso
      have hmem : '\n' ∈ N ++ '_' :: I := by
        have := List.mem_of_elem_eq_true hc
        exact this
      rcases List.mem_append.mp hmem with h1 | h2
      · exact hnl h1
      · rcases List.mem_cons.mp h2 with h3 | h4
        · exact absurd h3.symm (by decide)
        · have := hma _ h4
          rw [show ('\n').isAlphanum = false from by decide] at this
          exact absurd this (by decide)
  have hsplit : findSplit (N ++ '_' :: I) = some (N, I) := by
    apply findSplit_append N I hm
    rw [List.all_eq_true]; exact hma
  have hNe : N.isEmpty = false := by
    cases hNN : N with
    | nil => exact absurd hNN hn
    | cons a t => rfl
  rw [parse_key_name]
  rw [hdata, htake, hdrop, hcond]
  simp only [if_true]
  rw [hcontains]
  simp only [Bool.false_eq_true, if_false]
  rw [hsplit]
  simp only [hNe, Bool.false_eq_true, if_false]

/-- C7 counterexample: for a student identifier containing an underscore
the greedy pattern splits the label at the wrong underscore, so decoding
the encoded label does not return the student identifier, refuting the
claim for arbitrary identifier strings. -/
theorem c7_codec_counterexample :
    parse_key_name (build_key_name ⟨"Yuki", "Aoki", "a_b", none, none⟩ "20260227") =
      (some "20260227", "Yuki Aoki_a", some "b") ∧
    parse_key_name (build_key_name ⟨"Yuki", "Aoki", "a_b", none, none⟩ "20260227") ≠
      (some "20260227", display_name ⟨"Yuki", "Aoki", "a_b", none, none⟩,
        some (StudentInfo.mk "Yuki" "Aoki" "a_b" none none).mq_id) := by
  constructor
  · decide
  · decide

/-- Witness for c7_codec_amended at a concrete student and date. -/
theorem c7_codec_amended_witness :
    parse_key_name (build_key_name ⟨"Yuki", "Aoki", "48385123", none, none⟩ "20260227") =
      (some "20260227", display_name ⟨"Yuki", "Aoki", "48385123", none, none⟩,
        some "48385123") :=
  c7_codec_amended ⟨"Yuki", "Aoki", "48385123", none, none⟩ "20260227" (by decide) (by decide)
    (by decide) (by decide) (by decide) (by decide)

/-- C2: map_keys_to_roster processes keys in input order and partitions
them exactly: the matched keys are precisely the keys whose decoded
identifier is present and found in the roster lookup, in order; the
orphaned keys are precisely the rest, in order; and the sizes add up to
the number of keys.  Purity is inherent to the functional embedding. -/
theorem c2_match_partition (keys : List RemoteKey) (roster : List (String × StudentInfo)) :
    (map_keys_to_roster keys roster).1.map Prod.fst = keys.filter (keyHasRosterMatch roster) ∧
    (map_keys_to_roster keys roster).2.map Prod.fst =
      keys.filter (fun k => !(keyHasRosterMatch roster k)) ∧
    (map_keys_to_roster keys roster).1.length + (map_keys_to_roster keys roster).2.length =
      keys.length := by
  induction keys with
  | nil => exact ⟨rfl, rfl, rfl⟩
  | cons k ks ih =>
    obtain ⟨ih1, ih2, ih3⟩ := ih
    unfold map_keys_to_roster at ih1 ih2 ih3 ⊢
    cases hp : (parse_key_name k.name).2.2 with
    | none =>
      have hc : keyHasRosterMatch roster k = false := by
        simp [keyHasRosterMatch, hp]
      simp only [mapKeysGo, hp]
      refine ⟨?_, ?_, ?_⟩
      · simp [List.filter_cons, hc, ih1]
      · simp [List.filter_cons, hc, ih2]
      · simp [ih3]; omega
    | some mq =>
      cases hf : dictFind? (mqIdLookup roster) mq with
      | none =>
        have hc : keyHasRosterMatch roster k = false := by
          simp [keyHasRosterMatch, hp, hf]
        simp only [mapKeysGo, hp, hf]
        refine ⟨?_, ?_, ?_⟩
        · simp [List.filter_cons, hc, ih1]
        · simp [List.filter_cons, hc, ih2]
        · simp [ih3]; omega
      | some p =>
        have hc : keyHasRosterMatch roster k = true := by
          simp [keyHasRosterMatch, hp, hf]
        simp only [mapKeysGo, hp, hf]
        refine ⟨?_, ?_, ?_⟩
        · simp [List.filter_cons, hc, ih1]
        · simp [List.filter_cons, hc, ih2]
        · simp [ih3]; omega

lemma dictInsert_mem {α : Type} {m : List (String × α)} {k : String} {v : α}
    {q : String × α} (h : q ∈ dictInsert m k v) : q ∈ m ∨ q = (k, v) := by
  unfold dictInsert at h
  by_cases hc : m.any (fun p => p.1 == k) = true
  · rw [if_pos hc] at h
    rcases List.mem_map.mp h with ⟨p, hp, he⟩
    by_cases hk : p.1 == k
    · right; rw [if_pos hk] at he; exact he.symm
    · left; rw [if_neg hk] at he; exact he ▸ hp
  · rw [if_neg hc] at h
    rcases List.mem_append.mp h with h1 | h2
    · exact Or.inl h1
    · right
      rcases List.mem_singleton.mp h2 with h3
      exact h3

lemma dictFind?_eq_some {α : Type} {m : List (String × α)} {k : String} {v : α}
    (h : dictFind? m k = some v) : (k, v) ∈ m := by
  unfold dictFind? at h
  cases hf : m.find? (fun p => p.1 == k) with
  | none => rw [hf] at h; simp at h
  | some p =>
    rw [hf] at h
    have h1 : (p.1 == k) = true := by
      have := List.find?_some hf
      simpa using this
    have h2 : p ∈ m := List.mem_of_find?_eq_some hf
    have h3 : p.1 = k := by
      have := beq_iff_eq (a := p.1) (b := k)
      exact this.mp h1
    have h4 : p = (k, v) := by
      cases p with
      | mk a b =>
        simp only at h3
        injection h
        subst h3
        simp_all
    exact h4 ▸ h2

lemma lookupGo_inv :
    ∀ (l : List (String × StudentInfo)) (acc : List (String × (String × StudentInfo)))
      (q : String × (String × StudentInfo)),
      q ∈ l.foldl
        (fun acc p => if p.2.mq_id ≠ "" then dictInsert acc p.2.mq_id (p.1, p.2) else acc) acc →
      q ∈ acc ∨ (q.1 ≠ "" ∧ q.2.2.mq_id = q.1 ∧ q.2 ∈ l) := by
  intro l
  induction l with
  | nil => intro acc q h; exact Or.inl h
  | cons x l ih =>
    intro acc q h
    rw [List.foldl_cons] at h
    rcases ih _ q h with h1 | h2
    · by_cases hx : x.2.mq_id ≠ ""
      · rw [if_pos hx] at h1
        rcases dictInsert_mem h1 with h3 | h4
        · exact Or.inl h3
        · right
          subst h4
          exact ⟨hx, rfl, List.mem_cons_self _ _⟩
      · rw [if_neg hx] at h1
        exact Or.inl h1
    · right
      exact ⟨h2.1, h2.2.1, List.mem_cons_of_mem _ h2.2.2⟩

lemma mqIdLookup_inv (roster : List (String × StudentInfo)) :
    ∀ q ∈ mqIdLookup roster, q.1 ≠ "" ∧ q.2.2.mq_id = q.1 ∧ q.2 ∈ roster := by
  intro q h
  rcases lookupGo_inv roster [] q h with h1 | h2
  · simp at h1
  · exact h2

/-- C10: a lookup hit always carries a non-empty student identifier
equal to its key, so a roster entry with an empty identifier never
reaches the lookup; consequently every emitted match pairs a key with a
roster student whose non-empty identifier equals the decoded identifier
of the key. -/
theorem c10_matched_identifier (keys : List RemoteKey) (roster : List (String × StudentInfo)) :
    (∀ (mq : String) (p : String × StudentInfo),
        dictFind? (mqIdLookup roster) mq = some p →
        mq ≠ "" ∧ p.2.mq_id = mq ∧ p ∈ roster) ∧
    (∀ t ∈ (map_keys_to_roster keys roster).1,
        t.2.2.mq_id ≠ "" ∧ (parse_key_name t.1.name).2.2 = some t.2.2.mq_id ∧
        (t.2.1, t.2.2) ∈ roster) := by
  have hlk : ∀ (mq : String) (p : String × StudentInfo),
      dictFind? (mqIdLookup roster) mq = some p →
      mq ≠ "" ∧ p.2.mq_id = mq ∧ p ∈ roster := by
    intro mq p h
    have hmem := dictFind?_eq_some h
    have := mqIdLookup_inv roster _ hmem
    exact this
  refine ⟨hlk, ?_⟩
  induction keys with
  | nil => intro t ht; simp [map_keys_to_roster, mapKeysGo] at ht
  | cons k ks ih =>
    intro t ht
    unfold map_keys_to_roster at ht
    cases hp : (parse_key_name k.name).2.2 with
    | none =>
      simp only [mapKeysGo, hp] at ht
      exact ih t ht
    | some mq =>
      cases hf : dictFind? (mqIdLookup roster) mq with
      | none =>
        simp only [mapKeysGo, hp, hf] at ht
        exact ih t ht
      | some p =>
        rcases hlk mq p hf with ⟨hne, hid, hmem⟩
        cases p with
        | mk email info =>
          simp only [mapKeysGo, hp, hf] at ht
          rcases List.mem_cons.mp ht with h1 | h2
          · subst h1
            simp only at hid ⊢
            refine ⟨?_, ?_, ?_⟩
            · rw [hid]; exact hne
            · rw [hp, hid]
            · exact hmem
          · exact ih t h2

lemma computeChanges_nil_of_agree :
    ∀ (rows : List LimitsRow) (m : List (String × RemoteKey)) (acc : List Change),
      (∀ r ∈ rows, ∀ key : RemoteKey, dictFind? m r.email = some key →
        parseTargetLimit r.target_limit = key.limit ∧
        parseTargetDisabled r.target_disabled = actualDisabled key) →
      rows.foldl
        (fun acc row =>
          match dictFind? m row.email with
          | some k => acc ++ rowChanges k row
          | none => acc) acc = acc := by
  intro rows
  induction rows with
  | nil => intro m acc _; rfl
  | cons r rows ih =>
    intro m acc h
    rw [List.foldl_cons]
    cases hf : dictFind? m r.email with
    | none =>
      simp only
      exact ih m acc (fun r2 h2 => h r2 (List.mem_cons_of_mem _ h2))
    | some key =>
      rcases h r (List.mem_cons_self _ _) key hf with ⟨h1, h2⟩
      have hrc : rowChanges key r = [] := by
        simp [rowChanges, h1, h2]
      simp only [hrc, List.append_nil]
      exact ih m acc (fun r2 h2 => h r2 (List.mem_cons_of_mem _ h2))

/-- C4: the diff engine emits a limit change iff the parsed target limit
differs from the actual limit, with unlimited the distinguished absent
value distinct from every amount including zero; it emits a disabled
change iff the parsed target flag differs from the actual flag (which
defaults to false when unset); the recorded old and new values are the
actual and the target; a target of unlimited against a present actual
limit yields a limit change whose new value is the absent value; and
when every matched row agrees with its key the change list is empty. -/
theorem c4_diff_engine (k : RemoteKey) (row : LimitsRow) (m : List (String × RemoteKey))
    (rows : List LimitsRow) :
    ((∃ old new, (Change.mk row.email k.hash k.name (.limit old new)) ∈ rowChanges k row) ↔
      parseTargetLimit row.target_limit ≠ k.limit) ∧
    ((∃ old new, (Change.mk row.email k.hash k.name (.disabled old new)) ∈ rowChanges k row) ↔
      parseTargetDisabled row.target_disabled ≠ actualDisabled k) ∧
    (∀ old new, (Change.mk row.email k.hash k.name (.limit old new)) ∈ rowChanges k row →
      old = k.limit ∧ new = parseTargetLimit row.target_limit) ∧
    (∀ old new, (Change.mk row.email k.hash k.name (.disabled old new)) ∈ rowChanges k row →
      old = actualDisabled k ∧ new = parseTargetDisabled row.target_disabled) ∧
    (row.target_limit = .unlimited → k.limit ≠ none →
      (Change.mk row.email k.hash k.name (.limit k.limit none)) ∈ rowChanges k row) ∧
    ((∀ r ∈ rows, ∀ key : RemoteKey, dictFind? m r.email = some key →
        parseTargetLimit r.target_limit = key.limit ∧
        parseTargetDisabled r.target_disabled = actualDisabled key) →
      computeChanges m rows = []) := by
  by_cases h1 : parseTargetLimit row.target_limit = k.limit <;>
    by_cases h2 : parseTargetDisabled row.target_disabled = actualDisabled k <;>
    refine ⟨?_, ?_, ?_, ?_, ?_, fun h => computeChanges_nil_of_agree rows m [] h⟩ <;>
    simp_all [rowChanges] <;> try tauto

lemma applyBatchGo_fail (ok : ℕ → Bool) (ts : String) :
    ∀ (cs : List Change) (b i : ℕ), i < cs.length →
      (∀ j, j < i → ok (b + j) = true) → ok (b + i) = false →
      applyBatchGo ok ts b cs = ((cs.take i).map (mkChangelogEntry ts), some (b + i)) := by
  intro cs
  induction cs with
  | nil => intro b i hi _ _; simp at hi
  | cons c rest ih =>
    intro b i hi hbefore hfail
    cases i with
    | zero =>
      rw [applyBatchGo]
      rw [show b + 0 = b from rfl] at hfail
      rw [hfail]
      simp
    | succ i =>
      have hb : ok b = true := by
        have := hbefore 0 (Nat.succ_pos i)
        simpa using this
      rw [applyBatchGo, hb]
      simp only [if_true]
      have ihr := ih (b + 1) i (by simpa using Nat.lt_of_succ_lt_succ hi)
        (fun j hj => by
          have := hbefore (j + 1) (Nat.succ_lt_succ hj)
          simpa [Nat.add_assoc, Nat.add_comm 1 j] using this)
        (by
          have := hfail
          simpa [Nat.add_assoc, Nat.add_comm 1 i] using this)
      rw [ihr]
      simp [List.take_succ_cons, Nat.add_assoc, Nat.add_comm 1 i]

lemma applyBatchGo_ok (ok : ℕ → Bool) (ts : String) :
    ∀ (cs : List Change) (b : ℕ), (∀ j, j < cs.length → ok (b + j) = true) →
      applyBatchGo ok ts b cs = (cs.map (mkChangelogEntry ts), none) := by
  intro cs
  induction cs with
  | nil => intro b _; rfl
  | cons c rest ih =>
    intro b h
    have hb : ok b = true := by simpa using h 0 (Nat.succ_pos _)
    rw [applyBatchGo, hb]
    simp only [if_true]
    rw [ih (b + 1) (fun j hj => by
      have := h (j + 1) (Nat.succ_lt_succ hj)
      simpa [Nat.add_assoc, Nat.add_comm 1 j] using this)]
    simp

/-- C1: the update batch applier processes changes strictly in input
order, appending a changelog row only after the remote call succeeds;
if the first failure is at position i, the run stops there and the
persisted changelog rows are exactly those of the first i changes, in
order, with nothing rolled back; a fully successful run writes one row
per change. -/
theorem c1_update_batch_applier (ok : ℕ → Bool) (ts : String) (cs : List Change) :
    (∀ i, i < cs.length → (∀ j, j < i → ok j = true) → ok i = false →
      applyBatch ok ts cs = ((cs.take i).map (mkChangelogEntry ts), some i)) ∧
    ((∀ j, j < cs.length → ok j = true) →
      applyBatch ok ts cs = (cs.map (mkChangelogEntry ts), none)) := by
  constructor
  · intro i hi hbefore hfail
    unfold applyBatch
    have := applyBatchGo_fail ok ts cs 0 i hi (fun j hj => by simpa using hbefore j hj)
      (by simpa using hfail)
    simpa using this
  · intro h
    unfold applyBatch
    exact applyBatchGo_ok ok ts cs 0 (fun j hj => by simpa using h j hj)

/-- C5 (code bug): with a target of unlimited and an actual limit of 5
the diff engine emits a limit change whose new value is the absent
value, but update_openrouter_key omits an absent limit from its payload,
so applying the change leaves the remote key unchanged; re-running the
diff over the resulting state emits the same change again and a second
apply run writes another changelog row, contradicting the claimed
idempotence of diff-then-apply. -/
theorem c5_unlimited_change_not_applied :
    rowChanges ⟨"hash1", "20260227_Yuki Aoki_48385123", some 5, some false⟩
        ⟨"yuki@example.com", .unlimited, "false"⟩ =
      [⟨"yuki@example.com", "hash1", "20260227_Yuki Aoki_48385123", .limit (some 5) none⟩] ∧
    applyChangeRemote ⟨"hash1", "20260227_Yuki Aoki_48385123", some 5, some false⟩
        ⟨"yuki@example.com", "hash1", "20260227_Yuki Aoki_48385123", .limit (some 5) none⟩ =
      ⟨"hash1", "20260227_Yuki Aoki_48385123", some 5, some false⟩ ∧
    applyBatch (fun _ => true) "t2"
        (rowChanges
          (applyChangeRemote ⟨"hash1", "20260227_Yuki Aoki_48385123", some 5, some false⟩
            ⟨"yuki@example.com", "hash1", "20260227_Yuki Aoki_48385123", .limit (some 5) none⟩)
          ⟨"yuki@example.com", .unlimited, "false"⟩) =
      ([mkChangelogEntry "t2"
          ⟨"yuki@example.com", "hash1", "20260227_Yuki Aoki_48385123", .limit (some 5) none⟩],
        none) := by
  refine ⟨by decide, by decide, by decide⟩

lemma provisionGo_fail (ok : ℕ → Bool) (hashOf : ℕ → String) :
    ∀ (items : List ProvItem) (b i : ℕ), i < items.length →
      (∀ j, j < i → ok (b + j) = true) → ok (b + i) = false →
      provisionGo ok hashOf b items = (createdList hashOf b (items.take i), some (b + i)) := by
  intro items
  induction items with
  | nil => intro b i hi _ _; simp at hi
  | cons it rest ih =>
    intro b i hi hbefore hfail
    cases i with
    | zero =>
      rw [provisionGo]
      rw [show b + 0 = b from rfl] at hfail
      rw [hfail]
      simp [createdList]
    | succ i =>
      have hb : ok b = true := by simpa using hbefore 0 (Nat.succ_pos i)
      rw [provisionGo, hb]
      simp only [if_true]
      have ihr := ih (b + 1) i (by simpa using Nat.lt_of_succ_lt_succ hi)
        (fun j hj => by
          have := hbefore (j + 1) (Nat.succ_lt_succ hj)
          simpa [Nat.add_assoc, Nat.add_comm 1 j] using this)
        (by
          have := hfail
          simpa [Nat.add_assoc, Nat.add_comm 1 i] using this)
      rw [ihr]
      simp [List.take_succ_cons, createdList, Nat.add_assoc, Nat.add_comm 1 i]

lemma provisionGo_ok (ok : ℕ → Bool) (hashOf : ℕ → String) :
    ∀ (items : List ProvItem) (b : ℕ), (∀ j, j < items.length → ok (b + j) = true) →
      provisionGo ok hashOf b items = (createdList hashOf b items, none) := by
  intro items
  induction items with
  | nil => intro b _; rfl
  | cons it rest ih =>
    intro b h
    have hb : ok b = true := by simpa using h 0 (Nat.succ_pos _)
    rw [provisionGo, hb]
    simp only [if_true]
    rw [ih (b + 1) (fun j hj => by
      have := h (j + 1) (Nat.succ_lt_succ hj)
      simpa [Nat.add_assoc, Nat.add_comm 1 j] using this)]
    simp [createdList]

/-- C3 (amended): provisioning creates keys one at a time in order and a
mid-batch failure at position i halts processing, preserving the keys
already created; but the provisioned changelog rows are written only
after the whole batch succeeds, so a failed run writes none of them,
while a fully successful run writes one provisioned row with no prior
value per created key. -/
theorem c3_provision_amended (ok : ℕ → Bool) (hashOf : ℕ → String) (ts : String)
    (items : List ProvItem) :
    (∀ i, i < items.length → (∀ j, j < i → ok j = true) → ok i = false →
      provisionRun ok hashOf ts items = (createdList hashOf 0 (items.take i), [], some i)) ∧
    ((∀ j, j < items.length → ok j = true) →
      provisionRun ok hashOf ts items =
        (createdList hashOf 0 items, (createdList hashOf 0 items).map (provisionedEntry ts),
          none)) := by
  constructor
  · intro i hi hbefore hfail
    unfold provisionRun
    rw [provisionGo_fail ok hashOf items 0 i hi (fun j hj => by simpa using hbefore j hj)
      (by simpa using hfail)]
    simp
  · intro h
    unfold provisionRun
    rw [provisionGo_ok ok hashOf items 0 (fun j hj => by simpa using h j hj)]

/-- C3 counterexample: in a two-item batch failing at position 1, one
key was created before the failure yet the persisted changelog is empty,
refuting the claim that keys created before a mid-batch failure receive
provisioned changelog rows. -/
theorem c3_provision_changelog_counterexample :
    provisionRun (fun j => j == 0) (fun _ => "h0") "t"
        [⟨"a@example.com", ⟨"Ann", "Lee", "60853425", some 3, none⟩, 3, some "weekly"⟩,
         ⟨"b@example.com", ⟨"Bob", "Roy", "60853379", some 3, none⟩, 3, none⟩] =
      ([⟨"a@example.com", ⟨"Ann", "Lee", "60853425", some 3, none⟩, 3, some "weekly", "h0"⟩],
        [], some 1) ∧
    (provisionRun (fun j => j == 0) (fun _ => "h0") "t"
        [⟨"a@example.com", ⟨"Ann", "Lee", "60853425", some 3, none⟩, 3, some "weekly"⟩,
         ⟨"b@example.com", ⟨"Bob", "Roy", "60853379", some 3, none⟩, 3, none⟩]).1 ≠ [] ∧
    (provisionRun (fun j => j == 0) (fun _ => "h0") "t"
        [⟨"a@example.com", ⟨"Ann", "Lee", "60853425", some 3, none⟩, 3, some "weekly"⟩,
         ⟨"b@example.com", ⟨"Bob", "Roy", "60853379", some 3, none⟩, 3, none⟩]).2.1 = [] := by
  refine ⟨by decide, by decide, by decide⟩

/-- C9 (amended): in the rows save_limits writes, the limit cells read
unlimited exactly for a falsy resolved value, that is for an absent
limit or a limit of zero; every non-zero amount serialises as that
amount; and the disabled cells are always the lower-case strings true or
false.  The original claim that zero serialises as a number fails, see
the counterexample. -/
theorem c9_limits_serialization (ex : Option ExistingTarget) (k : RemoteKey) (email : String)
    (info : StudentInfo) (v : Option ℚ) :
    (limitCellOf v = .unlimited ↔ v = none ∨ v = some 0) ∧
    (∀ q : ℚ, q ≠ 0 → limitCellOf (some q) = .amount q) ∧
    (saveLimitsRowOut ex k email info).actual_limit = limitCellOf k.limit ∧
    (saveLimitsRowOut ex k email info).target_limit = limitCellOf (savedTargetLimit ex k) ∧
    ((saveLimitsRowOut ex k email info).target_disabled = "true" ∨
      (saveLimitsRowOut ex k email info).target_disabled = "false") ∧
    ((saveLimitsRowOut ex k email info).actual_disabled = "true" ∨
      (saveLimitsRowOut ex k email info).actual_disabled = "false") := by
  refine ⟨?_, ?_, rfl, rfl, ?_, ?_⟩
  · cases v with
    | none => simp [limitCellOf]
    | some q =>
      by_cases h : q = 0 <;> simp [limitCellOf, h]
  · intro q hq
    simp [limitCellOf, hq]
  · cases h : savedTargetDisabled ex k <;> simp [saveLimitsRowOut, pyBoolStr, h]
  · cases h : actualDisabled k <;> simp [saveLimitsRowOut, pyBoolStr, h]

/-- C9 counterexample: a matched key whose actual limit is the number 0
is written with both limit cells reading unlimited, refuting the claim
that every concrete numeric limit including 0 serialises as that
number. -/
theorem c9_zero_limit_counterexample :
    (saveLimitsRowOut none ⟨"h1", "n1", some 0, none⟩ "e@example.com"
        ⟨"Ann", "Lee", "60853425", some 0, none⟩).actual_limit = .unlimited ∧
    (saveLimitsRowOut none ⟨"h1", "n1", some 0, none⟩ "e@example.com"
        ⟨"Ann", "Lee", "60853425", some 0, none⟩).target_limit = .unlimited ∧
    (⟨"h1", "n1", some 0, none⟩ : RemoteKey).limit = some 0 := by
  refine ⟨by decide, by decide, by decide⟩

lemma loadRowStep_error (acc : List (String × StudentInfo)) (row : RosterRow) (n : ℕ)
    (h : rowOK row = false) : ∃ e, loadRowStep acc row n = .error e := by
  unfold loadRowStep validate_roster_row
  by_cases h1 : pyStrip row.first_name = ""
  · rw [if_pos h1]; exact ⟨_, rfl⟩
  · rw [if_neg h1]
    by_cases h2 : pyStrip row.last_name = ""
    · rw [if_pos h2]; exact ⟨_, rfl⟩
    · rw [if_neg h2]
      by_cases h3 : pyStrip row.mq_id = ""
      · rw [if_pos h3]; exact ⟨_, rfl⟩
      · rw [if_neg h3]
        simp only
        by_cases h4 : pyLower (pyStrip row.limit_reset) = ""
        · exfalso
          simp [rowOK, h1, h2, h3, h4] at h
        · rw [if_neg h4]
          simp only
          by_cases h5 : pyLower (pyStrip row.limit_reset) ∈ VALID_LIMIT_RESETS
          · exfalso
            simp [rowOK, h1, h2, h3, h4, h5] at h
          · rw [if_neg h5]
            exact ⟨_, rfl⟩

lemma loadRowStep_ok (acc : List (String × StudentInfo)) (row : RosterRow) (n : ℕ)
    (h : rowOK row = true) : ∃ acc2, loadRowStep acc row n = .ok acc2 := by
  unfold loadRowStep validate_roster_row
  simp only [rowOK, Bool.and_eq_true, Bool.or_eq_true, decide_eq_true_eq] at h
  obtain ⟨⟨⟨h1, h2⟩, h3⟩, h45⟩ := h
  rw [if_neg h1, if_neg h2, if_neg h3]
  simp only
  by_cases h4 : pyLower (pyStrip row.limit_reset) = ""
  · rw [if_pos h4]
    exact ⟨_, rfl⟩
  · rw [if_neg h4]
    simp only
    rcases h45 with h4' | h5
    · exact absurd h4' h4
    · rw [if_pos h5]
      exact ⟨_, rfl⟩

lemma loadRosterGo_isOk :
    ∀ (rows : List RosterRow) (n : ℕ) (acc : List (String × StudentInfo)),
      exceptIsOk (loadRosterGo rows n acc) = rows.all rowOK := by
  intro rows
  induction rows with
  | nil => intro n acc; rfl
  | cons row rest ih =>
    intro n acc
    rw [loadRosterGo, List.all_cons]
    cases h : rowOK row with
    | false =>
      rcases loadRowStep_error acc row n h with ⟨e, he⟩
      rw [he]
      rfl
    | true =>
      rcases loadRowStep_ok acc row n h with ⟨acc2, ha⟩
      rw [ha]
      simp [ih]

/-- C8 (amended): load_roster validation is strictly per row; it
succeeds exactly when every row passes field and cadence validation, so
duplicate student identifiers across rows are never a load error. -/
theorem c8_load_validation_per_row (rows : List RosterRow) :
    exceptIsOk (load_roster rows) = rows.all rowOK := by
  unfold load_roster
  exact loadRosterGo_isOk rows 2 []

/-- C8 counterexample: a roster source with two valid rows sharing one
student identifier loads successfully into a two-entry mapping, refuting
the claim that Load fails with a validation error on duplicates. -/
theorem c8_duplicate_id_counterexample :
    load_roster
        [⟨"Ann", "Lee", "a@example.com", "60853425", .num 3, "weekly"⟩,
         ⟨"Bob", "Roy", "b@example.com", "60853425", .num 3, "weekly"⟩] =
      .ok [("a@example.com", ⟨"Ann", "Lee", "60853425", some 3, some "weekly"⟩),
           ("b@example.com", ⟨"Bob", "Roy", "60853425", some 3, some "weekly"⟩)] ∧
    (⟨"Ann", "Lee", "60853425", some 3, some "weekly"⟩ : StudentInfo).mq_id =
      (⟨"Bob", "Roy", "60853425", some 3, some "weekly"⟩ : StudentInfo).mq_id := by
  refine ⟨rfl, rfl⟩

lemma insertSortedByKey_perm {α : Type} (keyf : α → String) (x : α) :
    ∀ l : List α, (insertSortedByKey keyf x l).Perm (x :: l) := by
  intro l
  induction l with
  | nil => exact List.Perm.refl _
  | cons y rest ih =>
    rw [insertSortedByKey]
    by_cases h : strLe (keyf x) (keyf y) = true
    · rw [if_pos h]
    · rw [if_neg h]
      exact (ih.cons y).trans (List.Perm.swap x y rest)

lemma sortByKey_perm {α : Type} (keyf : α → String) :
    ∀ l : List α, (sortByKey keyf l).Perm l := by
  intro l
  induction l with
  | nil => exact List.Perm.refl _
  | cons x rest ih =>
    have : sortByKey keyf (x :: rest) = insertSortedByKey keyf x (sortByKey keyf rest) := rfl
    rw [this]
    exact (insertSortedByKey_perm keyf x _).trans (ih.cons x)

lemma dictInsert_fresh {α : Type} {m : List (String × α)} {k : String} {v : α}
    (h : ∀ p ∈ m, p.1 ≠ k) : dictInsert m k v = m ++ [(k, v)] := by
  unfold dictInsert
  have hany : m.any (fun p => p.1 == k) = false := by
    rw [List.any_eq_false]
    intro p hp
    simp [h p hp]
  rw [hany]
  simp

lemma mem_valid_ne_empty : ∀ x ∈ VALID_LIMIT_RESETS, x ≠ "" := by decide

lemma loadRowStep_saved (acc : List (String × StudentInfo)) (e : String) (i : StudentInfo)
    (n : ℕ) (hv : validInfoB i = true) (hfresh : ∀ p ∈ acc, p.1 ≠ e) :
    loadRowStep acc (rosterRowOf e i) n = .ok (acc ++ [(e, normalizeInfo i)]) := by
  simp only [validInfoB, Bool.and_eq_true, decide_eq_true_eq] at hv
  obtain ⟨⟨⟨⟨h1, h2⟩, h3⟩, h4⟩, h5⟩ := hv
  have pf1 : (rosterRowOf e i).first_name = i.first_name := rfl
  have pf2 : (rosterRowOf e i).last_name = i.last_name := rfl
  have pf3 : (rosterRowOf e i).mq_id = i.mq_id := rfl
  have pf4 : (rosterRowOf e i).email = e := rfl
  have pf5 : (rosterRowOf e i).limit_reset = i.limit_reset.getD "" := rfl
  have hbud : budgetValue (rosterRowOf e i).budget = i.budget := by
    unfold rosterRowOf
    cases hb : i.budget with
    | none => simp [budgetValue]
    | some q =>
      have hq : q ≠ 0 := fun hq0 => h4 (by rw [hb, hq0])
      simp [budgetValue, hq]
  unfold loadRowStep validate_roster_row
  rw [pf1, pf2, pf3, pf4, pf5]
  rw [if_neg h1, if_neg h2, if_neg h3]
  simp only
  cases hlr : i.limit_reset with
  | none =>
    simp only [Option.getD_none]
    have hempty : pyLower (pyStrip "") = "" := rfl
    rw [hempty, if_pos rfl]
    simp only
    rw [dictInsert_fresh (fun p hp => hfresh p hp)]
    have hmk : mkInfo (rosterRowOf e i) none = normalizeInfo i := by
      unfold mkInfo normalizeInfo
      rw [pf1, pf2, pf3, hbud, hlr]
      rfl
    rw [hmk]
  | some s =>
    simp only [Option.getD_some]
    have hmem : pyLower (pyStrip s) ∈ VALID_LIMIT_RESETS := by
      rw [hlr] at h5
      simpa using h5
    have hne : pyLower (pyStrip s) ≠ "" := mem_valid_ne_empty _ hmem
    rw [if_neg hne]
    simp only
    rw [if_pos hmem]
    rw [dictInsert_fresh (fun p hp => hfresh p hp)]
    have hmk : mkInfo (rosterRowOf e i) (some (pyLower (pyStrip s))) = normalizeInfo i := by
      unfold mkInfo normalizeInfo
      rw [pf1, pf2, pf3, hbud, hlr]
      rfl
    rw [hmk]

lemma loadRosterGo_saved :
    ∀ (l : List (String × StudentInfo)) (acc : List (String × StudentInfo)) (n : ℕ),
      (∀ p ∈ l, validInfoB p.2 = true) → (l.map Prod.fst).Nodup →
      (∀ p ∈ l, ∀ q ∈ acc, q.1 ≠ p.1) →
      loadRosterGo (l.map (fun p => rosterRowOf p.1 p.2)) n acc =
        .ok (acc ++ l.map (fun p => (p.1, normalizeInfo p.2))) := by
  intro l
  induction l with
  | nil => intro acc n _ _ _; simp [loadRosterGo]
  | cons p l ih =>
    intro acc n hv hnd hfresh
    rw [List.map_cons, loadRosterGo]
    rw [loadRowStep_saved acc p.1 p.2 n (hv p (List.mem_cons_self _ _))
      (fun q hq => hfresh p (List.mem_cons_self _ _) q hq)]
    simp only
    rw [List.map_cons, List.nodup_cons] at hnd
    have hstep := ih (acc ++ [(p.1, normalizeInfo p.2)]) (n + 1)
      (fun p2 h2 => hv p2 (List.mem_cons_of_mem _ h2))
      hnd.2
      (fun p2 h2 q hq => by
        rcases List.mem_append.mp hq with hq1 | hq2
        · exact hfresh p2 (List.mem_cons_of_mem _ h2) q hq1
        · rcases List.mem_singleton.mp hq2 with rfl
          intro he
          exact hnd.1 (by
            rw [he]
            exact List.mem_map_of_mem Prod.fst h2))
    rw [hstep]
    simp

/-- C6 (amended): for every roster mapping with distinct emails whose
records pass validation and whose budgets are not exactly zero, Save
followed by Load succeeds and yields the records field for field, sorted
by email, modulo stripping of surrounding whitespace and lower-casing of
the reset cadence.  A budget of zero breaks the round trip, see the
counterexample. -/
theorem c6_roundtrip_amended (r : List (String × StudentInfo))
    (hnd : (r.map Prod.fst).Nodup) (hv : ∀ p ∈ r, validInfoB p.2 = true) :
    load_roster (save_roster r) =
      .ok ((sortByKey Prod.fst r).map (fun p => (p.1, normalizeInfo p.2))) := by
  unfold load_roster save_roster
  have hperm := sortByKey_perm Prod.fst r
  have hv2 : ∀ p ∈ sortByKey Prod.fst r, validInfoB p.2 = true :=
    fun p hp => hv p (hperm.mem_iff.mp hp)
  have hnd2 : ((sortByKey Prod.fst r).map Prod.fst).Nodup :=
    ((hperm.map Prod.fst).nodup_iff).mpr hnd
  exact loadRosterGo_saved (sortByKey Prod.fst r) [] 2 hv2 hnd2 (fun p _ q hq => by simp at hq)

/-- C6 counterexample: a student with budget 0 is re-serialised with an
empty budget cell, so Save followed by Load returns the record with an
absent budget, which is not field-for-field equal to the original. -/
theorem c6_roundtrip_counterexample :
    load_roster (save_roster [("yuki@example.com", ⟨"Yuki", "Aoki", "48385123", some 0, none⟩)]) =
      .ok [("yuki@example.com", ⟨"Yuki", "Aoki", "48385123", none, none⟩)] ∧
    (⟨"Yuki", "Aoki", "48385123", none, none⟩ : StudentInfo) ≠
      ⟨"Yuki", "Aoki", "48385123", some 0, none⟩ := by
  refine ⟨rfl, by decide⟩

/-- Witness for c6_roundtrip_amended at a concrete two-entry roster. -/
theorem c6_roundtrip_amended_witness :
    load_roster (save_roster
        [("z@example.com", ⟨"Zoe", "Kim", "60853425", some 3, some " Weekly "⟩),
         ("a@example.com", ⟨"Ann", "Lee", "60853379", none, none⟩)]) =
      .ok [("a@example.com", ⟨"Ann", "Lee", "60853379", none, none⟩),
           ("z@example.com", ⟨"Zoe", "Kim", "60853425", some 3, some "weekly"⟩)] := by
  have h := c6_roundtrip_amended
    [("z@example.com", ⟨"Zoe", "Kim", "60853425", some 3, some " Weekly "⟩),
     ("a@example.com", ⟨"Ann", "Lee", "60853379", none, none⟩)]
    (by decide) (by decide)
  rw [h]
  decide

/-- Witness for c1_update_batch_applier: a two-change batch failing at
position 1 persists exactly the first changelog row. -/
theorem c1_update_batch_applier_witness :
    applyBatch (fun j => decide (j < 1)) "t"
        [⟨"e1", "h1", "n1", .limit (some 5) (some 3)⟩,
         ⟨"e2", "h2", "n2", .disabled false true⟩] =
      (([⟨"e1", "h1", "n1", .limit (some 5) (some 3)⟩,
         ⟨"e2", "h2", "n2", .disabled false true⟩].take 1).map (mkChangelogEntry "t"),
        some 1) :=
  (c1_update_batch_applier (fun j => decide (j < 1)) "t"
    [⟨"e1", "h1", "n1", .limit (some 5) (some 3)⟩,
     ⟨"e2", "h2", "n2", .disabled false true⟩]).1 1 (by decide)
    (fun j hj => decide_eq_true hj) (by decide)

/-- Witness for c3_provision_amended at a concrete failing batch. -/
theorem c3_provision_amended_witness :
    provisionRun (fun j => decide (j < 1)) (fun _ => "h0") "t"
        [⟨"a@example.com", ⟨"Ann", "Lee", "60853425", some 3, none⟩, 3, some "weekly"⟩,
         ⟨"b@example.com", ⟨"Bob", "Roy", "60853379", some 3, none⟩, 3, none⟩] =
      (createdList (fun _ => "h0") 0
        ([⟨"a@example.com", ⟨"Ann", "Lee", "60853425", some 3, none⟩, 3, some "weekly"⟩,
          ⟨"b@example.com", ⟨"Bob", "Roy", "60853379", some 3, none⟩, 3, none⟩].take 1),
        [], some 1) :=
  (c3_provision_amended (fun j => decide (j < 1)) (fun _ => "h0") "t"
    [⟨"a@example.com", ⟨"Ann", "Lee", "60853425", some 3, none⟩, 3, some "weekly"⟩,
     ⟨"b@example.com", ⟨"Bob", "Roy", "60853379", some 3, none⟩, 3, none⟩]).1 1 (by decide)
    (fun j hj => decide_eq_true hj) (by decide)

/-- Witness for c4_diff_engine: a row agreeing with its key produces an
empty change list. -/
theorem c4_diff_engine_witness :
    computeChanges [("e@example.com", ⟨"h1", "n1", some 3, some false⟩)]
        [⟨"e@example.com", .amount 3, "false"⟩] = [] :=
  (c4_diff_engine ⟨"h1", "n1", some 3, some false⟩ ⟨"e@example.com", .amount 3, "false"⟩
    [("e@example.com", ⟨"h1", "n1", some 3, some false⟩)]
    [⟨"e@example.com", .amount 3, "false"⟩]).2.2.2.2.2 (by
      intro r hr key hk
      rcases List.mem_singleton.mp hr with rfl
      have hx : dictFind? [("e@example.com", (⟨"h1", "n1", some 3, some false⟩ : RemoteKey))]
          (⟨"e@example.com", .amount 3, "false"⟩ : LimitsRow).email =
          some ⟨"h1", "n1", some 3, some false⟩ := rfl
      rw [hx] at hk
      injection hk with h
      subst h
      exact ⟨by decide, by decide⟩)

/-- Witness for c10_matched_identifier at a concrete key and roster. -/
theorem c10_matched_identifier_witness :
    (⟨"Ann", "Lee", "60853425", some 3, none⟩ : StudentInfo).mq_id ≠ "" ∧
    (parse_key_name
        (⟨"hashA", "20260227_Ann Lee_60853425", some 3, some false⟩ : RemoteKey).name).2.2 =
      some (⟨"Ann", "Lee", "60853425", some 3, none⟩ : StudentInfo).mq_id ∧
    ("a@example.com", (⟨"Ann", "Lee", "60853425", some 3, none⟩ : StudentInfo)) ∈
      [("a@example.com", (⟨"Ann", "Lee", "60853425", some 3, none⟩ : StudentInfo))] :=
  (c10_matched_identifier [⟨"hashA", "20260227_Ann Lee_60853425", some 3, some false⟩]
      [("a@example.com", ⟨"Ann", "Lee", "60853425", some 3, none⟩)]).2
    (⟨"hashA", "20260227_Ann Lee_60853425", some 3, some false⟩, "a@example.com",
      ⟨"Ann", "Lee", "60853425", some 3, none⟩)
    (by decide)


/-- Witness for c9_limits_serialization: a non-zero amount serialises as
itself. -/
theorem c9_limits_serialization_witness :
    limitCellOf (some 5) = TargetLimitCell.amount 5 :=
  (c9_limits_serialization none ⟨"h1", "n1", some 5, none⟩ "e@example.com"
    ⟨"Ann", "Lee", "60853425", some 5, none⟩ (some 5)).2.1 5 (by decide)
